import Mathlib

/-!
Verification of the EverMemoryArchive core (ActorWorker / Agent loop /
ContextManager) against its natural-language specification.

The TypeScript sources are shallowly embedded: classes become structures,
methods become pure functions (state in, state out), async collaborators
(the LLM client, the tokenizer, `JSON.parse`) become explicit function
parameters, and thrown exceptions become `Except` / `Option` values.
JavaScript numbers that matter to the claims are modelled as `Int`
(`NaN` and fractional values do not arise on those paths).
-/

namespace Ema

/-- A message content block (`Content` in `schema.ts`).  The TypeScript
type only declares `{type:"text", text}`, but runtime values arriving over
HTTP may carry other `type` tags, which `ActorWorker.work` rejects; the
`other` constructor models such a block, with `rendered` standing for the
string `JSON.stringify` would produce for it. -/
inductive ContentBlock where
  | text (text : String)
  | other (kind : String) (rendered : String)
deriving DecidableEq, Repr

/-- Whether a content block has `type === "text"`. -/
def ContentBlock.isText : ContentBlock → Bool
  | .text _ => true
  | .other _ _ => false

/-- A JavaScript runtime value appearing as a tool-call argument.
`raw` carries the result of the JS `String()` coercion for values that are
neither strings nor nullish. -/
inductive JsVal where
  | undef
  | null
  | str (s : String)
  | raw (coerced : String)
deriving DecidableEq, Repr

/-- JS nullish test (`??` triggers on both `null` and `undefined`). -/
def JsVal.isNullish : JsVal → Bool
  | .undef => true
  | .null => true
  | _ => false

/-- The JS `String()` coercion. -/
def JsVal.jsString : JsVal → String
  | .undef => "undefined"
  | .null => "null"
  | .str s => s
  | .raw c => c

/-- `ToolCall` from `schema.ts`: `{id?, name, args, thoughtSignature?}`.
`args` is an ordered string-keyed map (JS object iteration order). -/
structure ToolCall where
  id : Option String
  name : String
  args : List (String × JsVal)
  thoughtSignature : Option String := none
deriving DecidableEq, Repr

/-- `ToolResult` from `tools/base.ts`: `{success, content?, error?}`. -/
structure ToolResult where
  success : Bool
  content : Option String
  error : Option String
deriving DecidableEq, Repr

/-- The documented `ToolResult` invariant (spec §3):
`success=true ⇒ content set and error unset`; `success=false ⇒ error set`. -/
def resultInvariant (r : ToolResult) : Prop :=
  (r.success = true → r.content.isSome ∧ r.error = none) ∧
  (r.success = false → r.error.isSome)

instance (r : ToolResult) : Decidable (resultInvariant r) := by
  unfold resultInvariant; infer_instance

/-- `Message` from `schema.ts`: user / model / tool variants.
`toolCalls` is optional on model messages (`toolCalls?`), hence
`Option (List ToolCall)`. -/
inductive Message where
  | user (contents : List ContentBlock)
  | model (contents : List ContentBlock) (toolCalls : Option (List ToolCall))
  | tool (name : String) (id : Option String) (result : ToolResult)
deriving DecidableEq, Repr

/-- Type guard `isUserMessage`. -/
def isUserMessage : Message → Bool
  | .user _ => true
  | _ => false

/-- Type guard `isModelMessage`. -/
def isModelMessage : Message → Bool
  | .model _ _ => true
  | _ => false

/-- Type guard `isToolMessage`. -/
def isToolMessage : Message → Bool
  | .tool _ _ _ => true
  | _ => false

/-- The model half of an `LLMResponse` (`message: ModelMessage`). -/
structure ModelMsg where
  contents : List ContentBlock
  toolCalls : Option (List ToolCall)
deriving DecidableEq, Repr

/-- `LLMResponse` from `schema.ts`. `totalTokens` is a JS number; we use
`Int` so that the zero / negative cases of claim C8 are expressible. -/
structure LLMResponse where
  message : ModelMsg
  finishReason : String
  totalTokens : Int
deriving DecidableEq, Repr

/-- Inject a model message into the `Message` union. -/
def ModelMsg.toMessage (m : ModelMsg) : Message :=
  .model m.contents m.toolCalls

/-! ## ContextManager state (`agent.ts`, class `ContextManager`) -/

/-- The mutable fields of `ContextManager` that the claims touch.
`tokenLimit` and `apiTotalTokens` are JS numbers, modelled as `Int`. -/
structure CMState where
  messages : List Message
  tokenLimit : Int
  apiTotalTokens : Int
  skipNextTokenCheck : Bool
deriving DecidableEq, Repr

/-- `ContextManager.addUserMessage`. -/
def addUserMessage (st : CMState) (contents : List ContentBlock) : CMState :=
  { st with messages := st.messages ++ [.user contents] }

/-- `ContextManager.addModelMessage`. -/
def addModelMessage (st : CMState) (response : LLMResponse) : CMState :=
  { st with messages := st.messages ++ [response.message.toMessage] }

/-- `ContextManager.addToolMessage`. -/
def addToolMessage (st : CMState) (result : ToolResult) (name : String)
    (toolCallId : Option String) : CMState :=
  { st with messages := st.messages ++ [.tool name toolCallId result] }

/-- `ContextManager.updateApiTokens`:
`if (response.totalTokens) { this.apiTotalTokens = response.totalTokens; }`.
The JS condition is number truthiness, i.e. `totalTokens ≠ 0` (NaN cannot
arise for an `Int`). -/
def updateApiTokens (st : CMState) (response : LLMResponse) : CMState :=
  if response.totalTokens ≠ 0 then
    { st with apiTotalTokens := response.totalTokens }
  else st

/-! ## Events and token estimation (`agent.ts`) -/

/-- Modelled from the spec: the `EmaReply` payload produced by
`tools/ema_reply_tool.ts`, which is not among the provided sources.  The
spec fixes the reply record shape as `{think, expression, action,
response}`. -/
structure EmaReply where
  think : String
  expression : String
  action : String
  response : String
deriving DecidableEq, Repr

/-- Agent lifecycle events (`AgentEventDefs` in `agent.ts`), restricted to
the payload fields the claims mention.  The two `summarizeMessagesFinished`
constructors mirror the ok/error union of the event payload. -/
inductive AgentEv where
  | tokenEstimationFallbacked
  | summarizeMessagesStarted
      (localEstimatedTokens : Nat) (apiReportedTokens tokenLimit : Int)
  | summarizeMessagesFinishedOk
      (oldTokens newTokens userMessageCount summaryCount : Nat)
  | summarizeMessagesFinishedErr
  | createSummaryFinished (ok : Bool) (roundNum : Nat)
  | stepStarted (stepNumber maxSteps : Nat)
  | runFinished (ok : Bool) (msg : String)
  | llmResponseReceived (response : LLMResponse)
  | toolCallStarted (toolCallId functionName : String)
      (callArgs : List (String × JsVal))
  | toolCallFinished (ok : Bool) (toolCallId functionName : String)
      (result : ToolResult)
  | emaReplyReceived (reply : EmaReply)
deriving DecidableEq, Repr

/-- JSON string escaping as performed by `JSON.stringify`. -/
def jsonEscapeChar (c : Char) : String :=
  if c = '"' then "\\\""
  else if c = '\\' then "\\\\"
  else if c = '\n' then "\\n"
  else if c = '\r' then "\\r"
  else if c = '\t' then "\\t"
  else if c = '\x08' then "\\b"
  else if c = '\x0c' then "\\f"
  else if c.toNat < 0x20 then
    "\\u" ++ (Nat.toDigits 16 c.toNat).asString.leftpad 4 '0'
  else String.singleton c

/-- JSON rendering of a string literal. -/
def jsonStr (s : String) : String :=
  "\"" ++ String.join (s.data.map jsonEscapeChar) ++ "\""

/-- `JSON.stringify` of a content block (used by the token estimator on
non-text blocks; for an `other` block the stored `rendered` string is its
serialization). -/
def stringifyBlock : ContentBlock → String
  | .text t => "\x7b\"type\":\"text\",\"text\":" ++ jsonStr t ++ "\x7d"
  | .other _ rendered => rendered

/-- JSON rendering of an argument value; `none` for `undefined`, whose
object properties `JSON.stringify` drops.  A `raw` value stands for a
non-string JS value; its stored coercion doubles as its rendering. -/
def stringifyJsVal : JsVal → Option String
  | .undef => none
  | .null => some "null"
  | .str s => some (jsonStr s)
  | .raw c => some c

/-- `JSON.stringify` of a tool-call `args` object. -/
def stringifyArgs (args : List (String × JsVal)) : String :=
  "\x7b" ++ String.intercalate ","
    (args.filterMap fun kv =>
      (stringifyJsVal kv.2).map fun s => jsonStr kv.1 ++ ":" ++ s) ++ "\x7d"

/-- `JSON.stringify` of one `ToolCall` (optional fields dropped when
absent). -/
def stringifyToolCall (tc : ToolCall) : String :=
  "\x7b" ++ String.intercalate "," (List.reduceOption
    [tc.id.map (fun i => "\"id\":" ++ jsonStr i),
     some ("\"name\":" ++ jsonStr tc.name),
     some ("\"args\":" ++ stringifyArgs tc.args),
     tc.thoughtSignature.map (fun s => "\"thoughtSignature\":" ++ jsonStr s)])
  ++ "\x7d"

/-- `JSON.stringify` of a tool-call list. -/
def stringifyToolCalls (tcs : List ToolCall) : String :=
  "[" ++ String.intercalate "," (tcs.map stringifyToolCall) ++ "]"

/-- `JSON.stringify({content, error, success})` as built by the token
estimator for a tool message (undefined fields dropped). -/
def stringifyResultForTokens (r : ToolResult) : String :=
  "\x7b" ++ String.intercalate "," (List.reduceOption
    [r.content.map (fun c => "\"content\":" ++ jsonStr c),
     r.error.map (fun e => "\"error\":" ++ jsonStr e),
     some ("\"success\":" ++ (if r.success then "true" else "false"))])
  ++ "\x7d"

/-- Token contribution of one message in `ContextManager.estimateTokens`:
encoded content blocks, plus the stringified tool-call list when the
`toolCalls` field is present (note: present-but-empty is truthy in JS),
plus the stringified result for tool messages, plus the fixed 4-token
metadata overhead.  `encLen` is the external tiktoken encoder
(`enc.encode(s).length`); with a total encoder the fallback catch branch
is dead. -/
def estimateMsgTokens (encLen : String → Nat) (msg : Message) : Nat :=
  (match msg with
   | .user contents => (contents.map fun b =>
       match b with
       | .text t => encLen t
       | b => encLen (stringifyBlock b)).sum
   | .model contents _ => (contents.map fun b =>
       match b with
       | .text t => encLen t
       | b => encLen (stringifyBlock b)).sum
   | .tool _ _ _ => 0)
  + (match msg with
     | .model _ (some tcs) => encLen (stringifyToolCalls tcs)
     | _ => 0)
  + (match msg with
     | .tool _ _ r => encLen (stringifyResultForTokens r)
     | _ => 0)
  + 4

/-- `ContextManager.estimateTokens` over the message history. -/
def estimateTokens (encLen : String → Nat) (msgs : List Message) : Nat :=
  (msgs.map (estimateMsgTokens encLen)).sum

/-! ## Summarization protocol (`ContextManager.summarizeMessages`) -/

/-- The external collaborators `ContextManager` uses: the tiktoken encoder
and the LLM client's `generate` as invoked by `createSummary` (keyed by
the full summary prompt; `some` carries the response message contents,
`none` models a thrown/failed call). -/
structure LLMEnv where
  encLen : String → Nat
  summaryGen : String → Option (List ContentBlock)

/-- Text parts of a content-block list
(`contents.filter(c => c.type === "text").map(c => c.text)`). -/
def textsOf (contents : List ContentBlock) : List String :=
  contents.filterMap fun b =>
    match b with
    | .text t => some t
    | .other _ _ => none

/-- JS string truthiness: `some s` for a nonempty string, else `none`. -/
def strTruthy : Option String → Option String
  | some s => if s = "" then none else some s
  | none => none

/-- One line of the deterministic round rendering inside `createSummary`.
The source for-loop only has cases for model and tool messages; a user
message (which cannot occur inside a round) contributes nothing. -/
def renderExecMessage (msg : Message) : String :=
  match msg with
  | .model contents toolCalls =>
    let contentText := String.intercalate "\n" (textsOf contents)
    let toolCalls := toolCalls.getD []
    let base := "Assistant: " ++ contentText ++ "\n"
    if toolCalls.length > 0 then
      base ++ "  → Called tools: "
        ++ String.intercalate ", " (toolCalls.map (·.name)) ++ "\n"
    else base
  | .tool _ _ result =>
    let preview := ((strTruthy result.content).getD
      ((strTruthy result.error).getD ""))
    "  ← Tool returned: " ++ preview ++ "...\n"
  | .user _ => ""

/-- The deterministic textual rendering of one round
(`summaryContent` in `createSummary`). -/
def summaryContentFor (messages : List Message) (roundNum : Nat) : String :=
  "Round " ++ toString roundNum ++ " execution process:\n\n"
    ++ String.join (messages.map renderExecMessage)

/-- The fixed meta-prompt wrapped around a round rendering
(`summaryPrompt` in `createSummary`). -/
def summaryPromptFor (summaryContent : String) : String :=
  "Please provide a concise summary of the following Agent execution process:\n\n"
  ++ summaryContent
  ++ "\n\nRequirements:\n1. Focus on what tasks were completed and which tools were called\n2. Keep key execution results and important findings\n3. Be concise and clear, within 1000 words\n4. Use English\n5. Do not include \"user\" related content, only summarize the Agent\x27s execution process"

/-- `ContextManager.createSummary`: deterministic rendering of the round,
then an LLM call; on success the joined text parts of the response are the
summary, on failure the deterministic rendering is used.  Also returns the
`createSummaryFinished` event it emits. -/
def createSummary (env : LLMEnv) (messages : List Message) (roundNum : Nat) :
    String × List AgentEv :=
  if messages.isEmpty then ("", [])
  else
    match env.summaryGen (summaryPromptFor (summaryContentFor messages roundNum)) with
    | some contents =>
      (String.intercalate "\n" (textsOf contents),
       [.createSummaryFinished true roundNum])
    | none =>
      (summaryContentFor messages roundNum,
       [.createSummaryFinished false roundNum])

/-- Indices of all user messages, in order (the source computes
`messages.map((msg, index) => ...).filter(isUserMessage).map(index)`). -/
def userIndices : List Message → List Nat
  | [] => []
  | m :: rest =>
    let tail := (userIndices rest).map (· + 1)
    if isUserMessage m then 0 :: tail else tail

/-- The synthesized summary user message. -/
def summaryMessage (summaryText : String) : Message :=
  .user [.text ("[Model Execution Summary]\n\n" ++ summaryText)]

/-- The optional summary block one round contributes: one synthesized
user message when the round has execution messages and the produced
summary text is nonempty (JS truthiness of `summaryText`). -/
def roundPart (env : LLMEnv) (executionMessages : List Message)
    (roundNum : Nat) : List Message × Nat × List AgentEv :=
  if executionMessages.isEmpty then ([], 0, [])
  else if (createSummary env executionMessages roundNum).1 ≠ "" then
    ([summaryMessage (createSummary env executionMessages roundNum).1], 1,
     (createSummary env executionMessages roundNum).2)
  else ([], 0, (createSummary env executionMessages roundNum).2)

/-- Output of the rebuild loop: the rebuilt message list (without the
leading prelude), the summary count, and the emitted events. -/
structure RoundsOut where
  newMessages : List Message
  summaryCount : Nat
  events : List AgentEv
deriving DecidableEq, Repr

/-- The `for (let i = 0; ...)` rebuild loop of `summarizeMessages`: for the
i-th user index `u`, append `messages[u]`, then the round part for
`messages.slice(u + 1, nextUserIdx)` with round number `i + 1`
(`nextUserIdx` is the following user index, or `messages.length` for the
last user). -/
def summarizeRounds (env : LLMEnv) (msgs : List Message) :
    List Nat → Nat → RoundsOut
  | [], _ => ⟨[], 0, []⟩
  | u :: rest, i =>
    let nextUserIdx := rest.headD msgs.length
    let p := roundPart env ((msgs.take nextUserIdx).drop (u + 1)) (i + 1)
    let tail := summarizeRounds env msgs rest (i + 1)
    ⟨msgs.getD u (.user []) :: (p.1 ++ tail.newMessages),
     p.2.1 + tail.summaryCount,
     p.2.2 ++ tail.events⟩

/-- The leading prelude kept by the rebuild: the message at index 0, only
when the list is nonempty and that message is not a user message. -/
def headPart : List Message → List Message
  | [] => []
  | m :: _ => if isUserMessage m then [] else [m]

/-- Which branch of `summarizeMessages` ran. -/
inductive SummResult where
  | skipped
  | notNeeded
  | noUsers
  | rebuilt (userMessageCount summaryCount : Nat)
deriving DecidableEq, Repr

/-- `ContextManager.summarizeMessages` (packages/ema/src/agent.ts):
skip-flag early return; strict `>` gating on both the local estimate and
the API-reported count; no-op when no user message exists; otherwise
rebuild the list and set `skipNextTokenCheck`.  Returns the new state, the
emitted events, and the branch taken. -/
def summarizeMessages (env : LLMEnv) (st : CMState) :
    CMState × List AgentEv × SummResult :=
  if st.skipNextTokenCheck then
    ({ st with skipNextTokenCheck := false }, [], .skipped)
  else
    let estimatedTokens := estimateTokens env.encLen st.messages
    if ¬ ((estimatedTokens : Int) > st.tokenLimit
          ∨ st.apiTotalTokens > st.tokenLimit) then
      (st, [], .notNeeded)
    else
      let startEv := AgentEv.summarizeMessagesStarted estimatedTokens
        st.apiTotalTokens st.tokenLimit
      let userIdxs := userIndices st.messages
      if userIdxs.length < 1 then
        (st, [startEv, .summarizeMessagesFinishedErr], .noUsers)
      else
        let r := summarizeRounds env st.messages userIdxs 0
        let newMessages := headPart st.messages ++ r.newMessages
        let newTokens := estimateTokens env.encLen newMessages
        ({ st with messages := newMessages, skipNextTokenCheck := true },
         [startEv] ++ r.events
           ++ [.summarizeMessagesFinishedOk estimatedTokens newTokens
                userIdxs.length r.summaryCount],
         .rebuilt userIdxs.length r.summaryCount)

/-! ## Agent loop (`Agent.run`, packages/ema/src/agent.ts) -/

/-- A thrown JS exception, as caught by the tool-dispatch try/catch
(`name`, `message`, `stack`). -/
structure ExnInfo where
  name : String
  msg : String
  stack : String

/-- A tool as the agent sees it: its name, the key order of
`parameters.properties` when that field exists, and `execute`.
`Except.error` models `execute` throwing; a returned `ToolResult`
(successful or not) is `Except.ok`. -/
structure ToolSpec where
  name : String
  paramProps : Option (List String)
  execute : List JsVal → Except ExnInfo ToolResult

/-- `toolDict` lookup.  The dictionary is a `Map` built from the tool
list, so a later tool with the same name overwrites an earlier one: the
lookup finds the last matching tool. -/
def toolDictGet (tools : List ToolSpec) (name : String) : Option ToolSpec :=
  tools.reverse.find? (fun t => t.name == name)

/-- Positional argument mapping: the values of `callArgs` at the
`properties` keys in declaration order (a missing key yields
`undefined`), or the `callArgs` values in iteration order when the schema
has no `properties`. -/
def positionalArgs (tool : ToolSpec) (callArgs : List (String × JsVal)) :
    List JsVal :=
  match tool.paramProps with
  | some keys => keys.map (fun k => (callArgs.lookup k).getD JsVal.undef)
  | none => callArgs.map (·.2)

/-- Outcome of one main-loop `llm.generate` call. -/
inductive GenOutcome where
  | ok (response : LLMResponse)
  | retryExhausted (attempts : Nat) (lastError : String)
  | err (msg : String)

/-- External collaborators of one agent run: the `ContextManager`
environment, `JSON.parse` on the reply content (`none` models a parse
exception, which propagates out of `run`), the tool set, and the
main-loop `llm.generate` outcomes indexed by call number. -/
structure AgentEnv where
  llm : LLMEnv
  parseReply : String → Option EmaReply
  tools : List ToolSpec
  gen : Nat → GenOutcome

/-- Result of the tool-call for-loop: updated context state, emitted
events, and the pending exception if `JSON.parse` threw (in which case
the remaining calls were not processed). -/
structure ToolLoopOut where
  cm : CMState
  events : List AgentEv
  exn : Option String

/-- The `for (const toolCall of response.message.toolCalls)` loop.  Per
call: emit `toolCallStarted`; resolve the tool (unknown tools synthesize a
failure result, thrown executions are converted to failure results); emit
`toolCallFinished` (with the result as it is at emission time — handlers
run synchronously); for a successful `ema_reply`, parse the content and
emit `emaReplyReceived`, then clear `result.content` before appending the
tool message.  A `JSON.parse` throw happens while evaluating the emit
argument: the reply event is not emitted, no tool message is appended,
and the loop aborts. -/
def processToolCalls (env : AgentEnv) : CMState → List ToolCall → ToolLoopOut
  | st, [] => ⟨st, [], none⟩
  | st, tc :: rest =>
    let startEv := AgentEv.toolCallStarted (tc.id.getD "") tc.name tc.args
    let result : ToolResult :=
      match toolDictGet env.tools tc.name with
      | none => ⟨false, none, some ("Unknown tool: " ++ tc.name)⟩
      | some tool =>
        match tool.execute (positionalArgs tool tc.args) with
        | .ok r => r
        | .error e =>
          ⟨false, none,
           some ("Tool execution failed: " ++ e.name ++ ": " ++ e.msg
             ++ "\n\nTraceback:\n" ++ e.stack)⟩
    if result.success then
      let finEv := AgentEv.toolCallFinished true (tc.id.getD "") tc.name result
      if tc.name == "ema_reply" then
        match env.parseReply (result.content.getD "") with
        | none => ⟨st, [startEv, finEv], some "JSON.parse failed"⟩
        | some reply =>
          let cleared : ToolResult := { result with content := none }
          let st1 := addToolMessage st cleared tc.name tc.id
          let tail := processToolCalls env st1 rest
          ⟨tail.cm,
           startEv :: finEv :: AgentEv.emaReplyReceived reply :: tail.events,
           tail.exn⟩
      else
        let st1 := addToolMessage st result tc.name tc.id
        let tail := processToolCalls env st1 rest
        ⟨tail.cm, startEv :: finEv :: tail.events, tail.exn⟩
    else
      let finEv := AgentEv.toolCallFinished false (tc.id.getD "") tc.name result
      let st1 := addToolMessage st result tc.name tc.id
      let tail := processToolCalls env st1 rest
      ⟨tail.cm, startEv :: finEv :: tail.events, tail.exn⟩

/-- How a run ended: normal return, or an uncaught `JSON.parse`
exception. -/
inductive RunOutcome where
  | finished
  | exn (msg : String)
deriving DecidableEq, Repr

/-- Result of a run: final context state, the full event trace in
emission order, and the outcome. -/
structure RunOut where
  cm : CMState
  events : List AgentEv
  outcome : RunOutcome

/-- The `while (step < maxSteps)` loop of `Agent.run`, with `remaining`
iterations left, the 1-based `stepNumber`, and `k` main-loop `generate`
calls made so far.  Each iteration: summarize, emit `stepStarted`, call
`generate` (failures end the run via `runFinished{ok=false}`), emit
`llmResponseReceived`, update API tokens, append the model message,
finish on an absent or empty tool-call list, else run the tool loop.
When the loop exhausts `maxSteps`, emit the final failure event. -/
def runSteps (env : AgentEnv) (maxSteps : Nat) :
    Nat → Nat → Nat → CMState → RunOut
  | 0, _, _, st =>
    ⟨st,
     [AgentEv.runFinished false
        ("Task couldn\x27t be completed after " ++ toString maxSteps
          ++ " steps.")],
     .finished⟩
  | remaining + 1, stepNumber, k, st =>
    let s := summarizeMessages env.llm st
    let evs0 := s.2.1 ++ [AgentEv.stepStarted stepNumber maxSteps]
    match env.gen k with
    | .retryExhausted attempts lastError =>
      ⟨s.1,
       evs0 ++ [AgentEv.runFinished false
          ("LLM call failed after " ++ toString attempts ++ " retries\n"
            ++ "Last error: " ++ lastError)],
       .finished⟩
    | .err _ =>
      ⟨s.1, evs0 ++ [AgentEv.runFinished false "LLM call failed."], .finished⟩
    | .ok response =>
      let st2 := addModelMessage (updateApiTokens s.1 response) response
      let evs1 := evs0 ++ [AgentEv.llmResponseReceived response]
      if (response.message.toolCalls.getD []).isEmpty then
        ⟨st2, evs1 ++ [AgentEv.runFinished true response.finishReason],
         .finished⟩
      else
        let t := processToolCalls env st2 (response.message.toolCalls.getD [])
        match t.exn with
        | some m => ⟨t.cm, evs1 ++ t.events, .exn m⟩
        | none =>
          let tail := runSteps env maxSteps remaining (stepNumber + 1) (k + 1)
            t.cm
          ⟨tail.cm, evs1 ++ t.events ++ tail.events, tail.outcome⟩

/-- `Agent.run`: the step loop from step 0 with the full budget. -/
def agentRun (env : AgentEnv) (maxSteps : Nat) (st : CMState) : RunOut :=
  runSteps env maxSteps maxSteps 1 0 st

/-! ### Event-order properties of the run (C1) -/

/-- Recognizer for `emaReplyReceived` events. -/
def isReplyEv : AgentEv → Bool
  | .emaReplyReceived _ => true
  | _ => false

/-- Recognizer for a successful `toolCallFinished` of the reply tool. -/
def isEmaFinishedOk : AgentEv → Bool
  | .toolCallFinished ok _ n _ => ok && n == "ema_reply"
  | _ => false

/-- Scanning check: every `emaReplyReceived` is immediately preceded (in
the whole trace, `prev` being the event before the scanned segment) by a
successful `toolCallFinished` for `ema_reply`. -/
def replyAdjacentAux (prev : Option AgentEv) : List AgentEv → Bool
  | [] => true
  | e :: rest =>
    (if isReplyEv e then
       match prev with
       | some p => isEmaFinishedOk p
       | none => false
     else true)
    && replyAdjacentAux (some e) rest

/-- The adjacency check over a full trace. -/
def replyAdjacent (tr : List AgentEv) : Bool := replyAdjacentAux none tr

/-- The "previous event" seen after a segment: its last element, or the
incoming one when the segment is empty. -/
def lastOr : List AgentEv → Option AgentEv → Option AgentEv
  | [], p => p
  | x :: rest, _ => lastOr rest (some x)

theorem replyAdjacentAux_append (p : Option AgentEv) (xs ys : List AgentEv) :
    replyAdjacentAux p (xs ++ ys)
      = (replyAdjacentAux p xs && replyAdjacentAux (lastOr xs p) ys) := by
  induction xs generalizing p with
  | nil => simp [replyAdjacentAux, lastOr]
  | cons x xs ih =>
    simp only [List.cons_append, replyAdjacentAux, lastOr, List.append_eq,
      Bool.and_assoc]
    rw [ih (some x)]

theorem replyAdjacentAux_of_no_reply (l : List AgentEv)
    (h : ∀ e ∈ l, isReplyEv e = false) (p : Option AgentEv) :
    replyAdjacentAux p l = true := by
  induction l generalizing p with
  | nil => rfl
  | cons e rest ih =>
    simp only [replyAdjacentAux, h e (List.mem_cons_self e rest),
      Bool.false_eq_true, if_false, ite_false, Bool.true_and]
    exact ih (fun x hx => h x (List.mem_cons_of_mem e hx)) (some e)

theorem createSummary_events_no_reply (env : LLMEnv) (msgs : List Message)
    (roundNum : Nat) :
    ∀ e ∈ (createSummary env msgs roundNum).2, isReplyEv e = false := by
  unfold createSummary
  by_cases h : msgs.isEmpty
  · simp [h]
  · rcases hg : env.summaryGen
        (summaryPromptFor (summaryContentFor msgs roundNum)) with _ | c <;>
      simp [h, hg, isReplyEv]

theorem roundPart_events_no_reply (env : LLMEnv) (msgs : List Message)
    (roundNum : Nat) :
    ∀ e ∈ (roundPart env msgs roundNum).2.2, isReplyEv e = false := by
  unfold roundPart
  split
  · simp
  · split <;> exact fun e he => createSummary_events_no_reply env msgs roundNum e he

theorem summarizeRounds_events_no_reply (env : LLMEnv) (msgs : List Message) :
    ∀ (idxs : List Nat) (i : Nat),
      ∀ e ∈ (summarizeRounds env msgs idxs i).events, isReplyEv e = false := by
  intro idxs
  induction idxs with
  | nil => intro i e he; simp [summarizeRounds] at he
  | cons u rest ih =>
    intro i e he
    simp only [summarizeRounds, List.mem_append] at he
    rcases he with h | h
    · exact roundPart_events_no_reply env _ _ e h
    · exact ih (i + 1) e h

theorem summarizeMessages_events_no_reply (env : LLMEnv) (st : CMState) :
    ∀ e ∈ (summarizeMessages env st).2.1, isReplyEv e = false := by
  by_cases h1 : st.skipNextTokenCheck = true
  · simp [summarizeMessages, h1]
  · by_cases h2 : ((estimateTokens env.encLen st.messages : Int) > st.tokenLimit
        ∨ st.apiTotalTokens > st.tokenLimit)
    · by_cases h3 : (userIndices st.messages).length < 1
      · simp [summarizeMessages, h1, h2, h3, isReplyEv]
      · intro e he
        simp only [summarizeMessages, h1, h2, h3, not_true, not_false_eq_true,
          if_false, if_true, Bool.false_eq_true, ite_false, ite_true,
          List.mem_append, List.mem_cons, List.mem_singleton,
          List.cons_append, List.nil_append, List.not_mem_nil,
          or_false] at he
        rcases he with h | h | h
        · rw [h]; rfl
        · exact summarizeRounds_events_no_reply env st.messages _ 0 e h
        · rw [h]; rfl
    · simp [summarizeMessages, h1, h2]

theorem processToolCalls_replyAdjacent (env : AgentEnv) :
    ∀ (tcs : List ToolCall) (st : CMState) (p : Option AgentEv),
      replyAdjacentAux p (processToolCalls env st tcs).events = true := by
  intro tcs
  induction tcs with
  | nil => intro st p; rfl
  | cons tc rest ih =>
    intro st p
    simp only [processToolCalls]
    split
    · next hsucc =>
      split
      · next hname =>
        split
        · simp [replyAdjacentAux, isReplyEv]
        · simp [replyAdjacentAux, isReplyEv, isEmaFinishedOk, hsucc, hname, ih]
      · simp [replyAdjacentAux, isReplyEv, ih]
    · simp [replyAdjacentAux, isReplyEv, ih]

theorem runSteps_replyAdjacent (env : AgentEnv) (maxSteps : Nat) :
    ∀ (remaining stepNumber k : Nat) (st : CMState) (p : Option AgentEv),
      replyAdjacentAux p
        (runSteps env maxSteps remaining stepNumber k st).events = true := by
  intro remaining
  induction remaining with
  | zero => intro s k st p; simp [runSteps, replyAdjacentAux, isReplyEv]
  | succ n ih =>
    intro s k st p
    have hsumm : ∀ q, replyAdjacentAux q (summarizeMessages env.llm st).2.1
        = true :=
      replyAdjacentAux_of_no_reply _ (summarizeMessages_events_no_reply _ _)
    simp only [runSteps]
    split
    · simp [replyAdjacentAux_append, hsumm, replyAdjacentAux, isReplyEv]
    · simp [replyAdjacentAux_append, hsumm, replyAdjacentAux, isReplyEv]
    · split
      · simp [replyAdjacentAux_append, hsumm, replyAdjacentAux, isReplyEv]
      · split
        · simp [replyAdjacentAux_append, hsumm, replyAdjacentAux, isReplyEv,
            processToolCalls_replyAdjacent]
        · simp [replyAdjacentAux_append, hsumm, replyAdjacentAux, isReplyEv,
            processToolCalls_replyAdjacent, ih]

/-- C1 (amended): in every run of the agent loop, `emaReplyReceived` is
emitted immediately *after* the successful `toolCallFinished` event for
that `ema_reply` call — the source emits `toolCallFinished{ok=true}`
first and the reply event next, the reverse of the claimed order (every
`emaReplyReceived` in the trace is directly preceded by a successful
`toolCallFinished` for `ema_reply`). -/
theorem emaReply_follows_toolCallFinished (env : AgentEnv) (maxSteps : Nat)
    (st : CMState) :
    replyAdjacent (agentRun env maxSteps st).events = true :=
  runSteps_replyAdjacent env maxSteps maxSteps 1 0 st none

/-! ### Concrete single-reply run (scenario S1) -/

/-- The successful reply-tool result for the concrete run. -/
def emaReplyResultW : ToolResult :=
  ⟨true,
   some "\x7b\"think\":\"t\",\"expression\":\"e\",\"action\":\"a\",\"response\":\"hi\"\x7d",
   none⟩

/-- The reply tool of the concrete run (its `execute` always succeeds
with the reply JSON). -/
def emaToolW : ToolSpec :=
  { name := "ema_reply",
    paramProps := some ["think", "expression", "action", "response"],
    execute := fun _ => .ok emaReplyResultW }

/-- First scripted LLM response: one `ema_reply` tool call. -/
def respW1 : LLMResponse :=
  { message :=
      { contents := [],
        toolCalls := some [⟨some "call_1", "ema_reply",
          [("think", .str "t"), ("expression", .str "e"),
           ("action", .str "a"), ("response", .str "hi")], none⟩] },
    finishReason := "tool_calls", totalTokens := 50 }

/-- Second scripted LLM response: no tool calls. -/
def respW2 : LLMResponse :=
  { message := { contents := [.text "done"], toolCalls := none },
    finishReason := "stop", totalTokens := 60 }

/-- Concrete run environment (S1): the reply tool, a trivial encoder, and
the two scripted responses. -/
def envW : AgentEnv :=
  { llm := ⟨fun _ => 0, fun _ => none⟩,
    parseReply := fun _ => some ⟨"t", "e", "a", "hi"⟩,
    tools := [emaToolW],
    gen := fun k => if k = 0 then .ok respW1 else .ok respW2 }

/-- Concrete initial context for the S1 run. -/
def stW : CMState :=
  { messages := [.user [.text "hello"]], tokenLimit := 10000,
    apiTotalTokens := 0, skipNextTokenCheck := false }

/-- C1 as stated: in the event trace, every `emaReplyReceived` comes
strictly before every successful `toolCallFinished` for `ema_reply`. -/
def replyPrecedesFinished (tr : List AgentEv) : Prop :=
  ∀ i, i < tr.length → ∀ j, j < tr.length →
    isReplyEv (tr.getD i .tokenEstimationFallbacked) = true →
    isEmaFinishedOk (tr.getD j .tokenEstimationFallbacked) = true →
    i < j

instance : DecidablePred replyPrecedesFinished := fun tr => by
  unfold replyPrecedesFinished
  infer_instance

/-- Counterexample for C1 as stated: in the concrete S1 run the
`toolCallFinished{ok=true}` event for the `ema_reply` call is emitted
*before* the `emaReplyReceived` event, so the claimed order is violated. -/
theorem emaReply_before_finished_cex :
    ¬ replyPrecedesFinished (agentRun envW 5 stW).events := by decide

/-! ### Tool-result invariant of appended messages (C2) -/

/-- What the agent loop may append as a tool message: either the result
satisfies the documented invariant, or it is the cleared result of a
successful `ema_reply` call (`success=true`, `content` and `error`
unset). -/
def appendedToolOk : Message → Prop
  | .tool name _ r =>
      resultInvariant r ∨
      (name = "ema_reply" ∧ r.success = true ∧ r.content = none ∧
        r.error = none)
  | _ => True

theorem appendedToolOk_of_user {m : Message} (h : isUserMessage m = true) :
    appendedToolOk m := by
  cases m <;> simp_all [appendedToolOk, isUserMessage]

theorem headPart_subset (msgs : List Message) :
    ∀ m ∈ headPart msgs, m ∈ msgs := by
  cases msgs with
  | nil => simp [headPart]
  | cons x t => by_cases h : isUserMessage x <;> simp [headPart, h]

theorem mem_summarizeRounds (env : LLMEnv) (msgs : List Message) :
    ∀ (idxs : List Nat) (i : Nat) (m : Message),
      m ∈ (summarizeRounds env msgs idxs i).newMessages →
      m ∈ msgs ∨ isUserMessage m = true := by
  intro idxs
  induction idxs with
  | nil => intro i m hm; simp [summarizeRounds] at hm
  | cons u rest ih =>
    intro i m hm
    simp only [summarizeRounds, List.mem_cons, List.mem_append] at hm
    rcases hm with h | h | h
    · by_cases hu : u < msgs.length
      · subst h
        rw [List.getD_eq_getElem _ _ hu]
        exact Or.inl (List.getElem_mem hu)
      · subst h
        rw [List.getD_eq_default _ _ (Nat.le_of_not_lt hu)]
        exact Or.inr rfl
    · right
      unfold roundPart at h
      split at h
      · simp at h
      · split at h
        · rw [List.mem_singleton] at h
          subst h; rfl
        · simp at h
    · exact ih (i + 1) m h

theorem mem_summarizeMessages (env : LLMEnv) (st : CMState) :
    ∀ m ∈ (summarizeMessages env st).1.messages,
      m ∈ st.messages ∨ isUserMessage m = true := by
  by_cases h1 : st.skipNextTokenCheck = true
  · simp only [summarizeMessages, h1, if_true, ite_true]
    exact fun m hm => Or.inl hm
  · by_cases h2 : ((estimateTokens env.encLen st.messages : Int) > st.tokenLimit
        ∨ st.apiTotalTokens > st.tokenLimit)
    · by_cases h3 : (userIndices st.messages).length < 1
      · simp only [summarizeMessages, h1, h2, h3, not_true, not_false_eq_true,
          if_false, if_true, Bool.false_eq_true, ite_false, ite_true]
        exact fun m hm => Or.inl hm
      · intro m hm
        simp only [summarizeMessages, h1, h2, h3, not_true, not_false_eq_true,
          if_false, if_true, Bool.false_eq_true, ite_false, ite_true,
          List.mem_append] at hm
        rcases hm with h | h
        · exact Or.inl (headPart_subset st.messages m h)
        · exact mem_summarizeRounds env st.messages _ 0 m h
    · simp only [summarizeMessages, h1, h2, not_true, not_false_eq_true,
        if_false, if_true, Bool.false_eq_true, ite_false, ite_true]
      exact fun m hm => Or.inl hm

theorem toolDictGet_mem (tools : List ToolSpec) (name : String)
    (t : ToolSpec) (h : toolDictGet tools name = some t) : t ∈ tools := by
  unfold toolDictGet at h
  exact List.mem_reverse.mp (List.mem_of_find?_eq_some h)

theorem updateApiTokens_messages (st : CMState) (r : LLMResponse) :
    (updateApiTokens st r).messages = st.messages := by
  unfold updateApiTokens; split <;> rfl

theorem mem_processToolCalls (env : AgentEnv)
    (HTools : ∀ t ∈ env.tools, ∀ args r, t.execute args = Except.ok r →
      resultInvariant r) :
    ∀ (tcs : List ToolCall) (st : CMState) (m : Message),
      m ∈ (processToolCalls env st tcs).cm.messages →
      m ∈ st.messages ∨ appendedToolOk m := by
  intro tcs
  induction tcs with
  | nil => intro st m hm; exact Or.inl hm
  | cons tc rest ih =>
    intro st m hm
    rcases hT : toolDictGet env.tools tc.name with _ | tool
    · simp only [processToolCalls, hT] at hm
      rcases ih _ m hm with h | h
      · simp only [addToolMessage, List.mem_append, List.mem_singleton] at h
        rcases h with h | h
        · exact Or.inl h
        · subst h
          exact Or.inr (Or.inl (by simp [resultInvariant]))
      · exact Or.inr h
    · rcases hE : tool.execute (positionalArgs tool tc.args) with e | r
      · simp only [processToolCalls, hT, hE] at hm
        rcases ih _ m hm with h | h
        · simp only [addToolMessage, List.mem_append, List.mem_singleton] at h
          rcases h with h | h
          · exact Or.inl h
          · subst h
            exact Or.inr (Or.inl (by simp [resultInvariant]))
        · exact Or.inr h
      · have hrInv : resultInvariant r :=
          HTools tool (toolDictGet_mem env.tools tc.name tool hT) _ r hE
        by_cases hs : r.success = true
        · by_cases hn : (tc.name == "ema_reply") = true
          · rcases hp : env.parseReply (r.content.getD "") with _ | reply
            · simp only [processToolCalls, hT, hE, hs, hn, hp, if_true,
                ite_true] at hm
              exact Or.inl hm
            · simp only [processToolCalls, hT, hE, hs, hn, hp, if_true,
                ite_true] at hm
              rcases ih _ m hm with h | h
              · simp only [addToolMessage, List.mem_append,
                  List.mem_singleton] at h
                rcases h with h | h
                · exact Or.inl h
                · subst h
                  refine Or.inr (Or.inr ⟨by simpa using hn, ?_, ?_, ?_⟩)
                  · simp [hs]
                  · rfl
                  · exact (hrInv.1 hs).2
              · exact Or.inr h
          · simp only [processToolCalls, hT, hE, hs, hn, if_true, ite_true,
              Bool.false_eq_true, if_false, ite_false] at hm
            rcases ih _ m hm with h | h
            · simp only [addToolMessage, List.mem_append,
                List.mem_singleton] at h
              rcases h with h | h
              · exact Or.inl h
              · subst h
                exact Or.inr (Or.inl hrInv)
            · exact Or.inr h
        · simp only [processToolCalls, hT, hE, hs, Bool.false_eq_true,
            if_false, ite_false] at hm
          rcases ih _ m hm with h | h
          · simp only [addToolMessage, List.mem_append,
              List.mem_singleton] at h
            rcases h with h | h
            · exact Or.inl h
            · subst h
              exact Or.inr (Or.inl hrInv)
          · exact Or.inr h

theorem mem_runSteps (env : AgentEnv) (maxSteps : Nat)
    (HTools : ∀ t ∈ env.tools, ∀ args r, t.execute args = Except.ok r →
      resultInvariant r) :
    ∀ (remaining stepNumber k : Nat) (st : CMState) (m : Message),
      m ∈ (runSteps env maxSteps remaining stepNumber k st).cm.messages →
      m ∈ st.messages ∨ appendedToolOk m := by
  intro remaining
  induction remaining with
  | zero => intro s k st m hm; exact Or.inl hm
  | succ n ih =>
    intro s k st m hm
    have hsumm : ∀ m, m ∈ (summarizeMessages env.llm st).1.messages →
        m ∈ st.messages ∨ appendedToolOk m := fun m hm =>
      (mem_summarizeMessages env.llm st m hm).imp id appendedToolOk_of_user
    have hst2 : ∀ r m,
        m ∈ (addModelMessage
          (updateApiTokens (summarizeMessages env.llm st).1 r) r).messages →
        m ∈ st.messages ∨ appendedToolOk m := by
      intro r m hm
      simp only [addModelMessage, updateApiTokens_messages, List.mem_append,
        List.mem_singleton] at hm
      rcases hm with h | h
      · exact hsumm m h
      · subst h
        exact Or.inr (by cases r.message.toolCalls <;> simp [appendedToolOk,
          ModelMsg.toMessage])
    simp only [runSteps] at hm
    split at hm
    · exact hsumm m hm
    · exact hsumm m hm
    · split at hm
      · exact hst2 _ m hm
      · split at hm
        · rcases mem_processToolCalls env HTools _ _ m hm with h2 | h2
          · exact hst2 _ m h2
          · exact Or.inr h2
        · rcases ih _ _ _ m hm with h | h
          · rcases mem_processToolCalls env HTools _ _ m h with h2 | h2
            · exact hst2 _ m h2
            · exact Or.inr h2
          · exact Or.inr h

/-- C2 (amended): assuming every tool's `execute` only returns results
satisfying the documented `ToolResult` invariant, every message the agent
loop appends to the context is either a non-tool message, a tool message
whose result satisfies the invariant, or the tool message of a successful
`ema_reply` call — whose `content` the loop cleared, so it has
`success=true` with `content` *unset* (violating the claimed invariant on
exactly that message). -/
theorem agentRun_tool_result_invariant (env : AgentEnv) (maxSteps : Nat)
    (st : CMState)
    (HTools : ∀ t ∈ env.tools, ∀ args r, t.execute args = Except.ok r →
      resultInvariant r) :
    ∀ m ∈ (agentRun env maxSteps st).cm.messages,
      m ∈ st.messages ∨ appendedToolOk m :=
  fun m hm => mem_runSteps env maxSteps HTools maxSteps 1 0 st m hm

/-- Witness for C2 (amended): the theorem applied to the concrete S1 run
(whose only tool always returns an invariant-satisfying result), at the
cleared `ema_reply` tool message that run appends. -/
theorem agentRun_tool_result_invariant_witness :
    Message.tool "ema_reply" (some "call_1") ⟨true, none, none⟩
        ∈ stW.messages
      ∨ appendedToolOk
          (Message.tool "ema_reply" (some "call_1") ⟨true, none, none⟩) :=
  agentRun_tool_result_invariant envW 5 stW
    (by
      intro t ht args r h
      rw [show envW.tools = [emaToolW] from rfl, List.mem_singleton] at ht
      subst ht
      rw [show emaToolW.execute args = Except.ok emaReplyResultW from rfl] at h
      cases h
      decide)
    (Message.tool "ema_reply" (some "call_1") ⟨true, none, none⟩)
    (by decide)

/-- Counterexample for C2 as stated: the concrete S1 run appends a
`ToolMessage` for the successful `ema_reply` call whose result has
`success=true` but no `content` (the loop cleared it), violating the
`ToolResult` invariant. -/
theorem clearedReply_violates_invariant :
    ∃ m ∈ (agentRun envW 5 stW).cm.messages, ∃ r,
      m = Message.tool "ema_reply" (some "call_1") r ∧ ¬ resultInvariant r :=
  ⟨Message.tool "ema_reply" (some "call_1") ⟨true, none, none⟩,
   by decide, ⟨true, none, none⟩, rfl, by decide⟩

/-! ## FinalReplyTool (`tools/final_reply_tool`, src/unnamed/part_004) -/

/-- `LLMReply`: plain data class for structured final replies. -/
structure LLMReply where
  think : String
  expression : String
  action : String
  response : String
deriving DecidableEq, Repr

/-- `LLMReply.normalize`: `String(input.x ?? "")` for each field.
A nullish field becomes `""`; any other value goes through the `String()`
coercion. -/
def LLMReply.normalize (think expression action response : JsVal) : LLMReply :=
  { think := if think.isNullish then "" else think.jsString
    expression := if expression.isNullish then "" else expression.jsString
    action := if action.isNullish then "" else action.jsString
    response := if response.isNullish then "" else response.jsString }

/-- `JSON.stringify(payload, null, 2)` for an `LLMReply` record (the four
fields in declaration order, two-space indentation). -/
def stringifyLLMReply (r : LLMReply) : String :=
  "\x7b\n  \"think\": " ++ jsonStr r.think ++
  ",\n  \"expression\": " ++ jsonStr r.expression ++
  ",\n  \"action\": " ++ jsonStr r.action ++
  ",\n  \"response\": " ++ jsonStr r.response ++ "\n\x7d"

/-- `FinalReplyTool.execute`.  The TS body wraps `normalize` + `stringify`
in try/catch, but both operations are total on runtime values (`String()`
and `JSON.stringify` of a record of four strings never throw), which the
totality of this definition mirrors; the catch branch would produce
`success=false`. -/
def FinalReplyTool.execute
    (think expression action response : JsVal) : ToolResult :=
  let payload := LLMReply.normalize think expression action response
  { success := true
    content := some (stringifyLLMReply payload)
    error := none }

/-! ## ActorWorker (`actor.ts`, src/unnamed/part_008) -/

/-- `BufferMessage.kind`. -/
inductive BufferKind where
  | user
  | actor
deriving DecidableEq, Repr

/-- `BufferMessage` from `memory/memory.ts`: an externalized, attributed
record (`{kind, id, name, contents, time}`, `time` in ms since epoch). -/
structure BufferMessage where
  kind : BufferKind
  id : Nat
  name : String
  contents : List ContentBlock
  time : Nat
deriving DecidableEq, Repr

/-- `bufferMessageFromUser` (`memory/utils.ts`). -/
def bufferMessageFromUser (userId : Nat) (userName : String)
    (inputs : List ContentBlock) (time : Nat) : BufferMessage :=
  { kind := .user, id := userId, name := userName, contents := inputs,
    time := time }

/-- Rendering of a buffer kind in the prompt line. -/
def kindStr : BufferKind → String
  | .user => "user"
  | .actor => "actor"

/-- `bufferMessageToPrompt` (`memory/utils.ts`).  `fmt` is the external
`dayjs(...).format("YYYY-MM-DD HH:mm:ss")` rendering of a timestamp;
non-text parts are rendered via their stored `JSON.stringify` form. -/
def bufferMessageToPrompt (fmt : Nat → String) (m : BufferMessage) : String :=
  let contents := String.intercalate "\n" (m.contents.map fun part =>
    match part with
    | .text t => t
    | b => stringifyBlock b)
  "- [" ++ fmt m.time ++ "][role:" ++ kindStr m.kind ++ "][id:"
    ++ toString m.id ++ "][name:" ++ m.name ++ "] " ++ contents

/-- The `<CONTEXT>` header prepended by `bufferMessageToUserMessage`. -/
def contextHeader (fmt : Nat → String) (m : BufferMessage) : String :=
  String.intercalate "\n"
    ["<CONTEXT>",
     "<time>" ++ fmt m.time ++ "</time>",
     "<id>" ++ toString m.id ++ "</id>",
     "<name>" ++ m.name ++ "</name>",
     "</CONTEXT>"]

/-- `bufferMessageToUserMessage` (`memory/utils.ts`): a user message whose
first block is the context header followed by the buffered contents.  The
source throws for `kind ≠ user`; `processQueue` only converts queue
entries, which are all user-kind. -/
def bufferMessageToUserMessage (fmt : Nat → String) (m : BufferMessage) :
    Message :=
  .user (.text (contextHeader fmt m) :: m.contents)

/-- `ActorStatus`. -/
inductive ActorStatus where
  | preparing
  | running
  | idle
deriving DecidableEq, Repr

/-- `AgentState` — the resumable state of one run
(`{systemPrompt, messages, tools}`; the tools are `config.baseTools`,
kept opaque as identifiers since the worker never inspects them). -/
structure AgentState where
  systemPrompt : String
  messages : List Message
  tools : List String
deriving DecidableEq, Repr

/-- The worker configuration fields the claims touch (`config` plus the
user id and the external timestamp formatter). -/
structure WorkerCfg where
  userId : Nat
  systemPrompt : String
  baseTools : List String
  fmt : Nat → String

/-- The mutable `ActorWorker` fields.  `chainPending` records the buffer
writes enqueued on `bufferWritePromise`, in order; `buffer` is `_buffer`
(the records already persisted). -/
structure WorkerState where
  currentStatus : ActorStatus
  agentState : Option AgentState
  buffer : List BufferMessage
  queue : List BufferMessage
  hasEmaReplyInRun : Bool
  resumeStateAfterAbort : Bool
  chainPending : List BufferMessage
deriving DecidableEq, Repr

/-- `ActorWorker.isBusy`. -/
def isBusy (st : WorkerState) : Bool := st.currentStatus != .idle

/-- The errors `work` raises during input validation. -/
inductive WorkError where
  | noInputs
  | unsupportedInput
deriving DecidableEq, Repr

/-- What `work` did after validating and enqueuing: aborted the in-flight
run (busy case) or invoked `processQueue` (idle case). -/
inductive WorkAction where
  | abortedCurrentRun
  | startedProcessQueue
deriving DecidableEq, Repr

/-- `ActorWorker.work`: validate (empty input and non-text blocks throw,
before any mutation), build the buffer message, push it onto the queue
and enqueue its buffer write; when busy, set
`resumeStateAfterAbort = !hasEmaReplyInRun` and abort the current run,
otherwise start `processQueue`. -/
def work (cfg : WorkerCfg) (st : WorkerState) (inputs : List ContentBlock)
    (now : Nat) : WorkerState × Except WorkError WorkAction :=
  if inputs.isEmpty then (st, .error .noInputs)
  else if inputs.any (fun b => !b.isText) then (st, .error .unsupportedInput)
  else
    let bufferMessage := bufferMessageFromUser cfg.userId "User" inputs now
    let st1 := { st with queue := st.queue ++ [bufferMessage],
                         chainPending := st.chainPending ++ [bufferMessage] }
    if isBusy st1 then
      ({ st1 with resumeStateAfterAbort := !st1.hasEmaReplyInRun },
       .ok .abortedCurrentRun)
    else (st1, .ok .startedProcessQueue)

/-- The last `n` elements of a list (`slice(-n)`). -/
def lastN (n : Nat) (l : List BufferMessage) : List BufferMessage :=
  l.drop (l.length - n)

/-- `ActorWorker.buildSystemPrompt`: replace every `{MEMORY_BUFFER}`
occurrence with the rendering of the last 10 buffer items (`"None."`
when the buffer is empty). -/
def buildSystemPrompt (cfg : WorkerCfg) (buffer : List BufferMessage) :
    String :=
  let bufferWindow := lastN 10 buffer
  let bufferText :=
    if bufferWindow.isEmpty then "None."
    else String.intercalate "\n"
      (bufferWindow.map (bufferMessageToPrompt cfg.fmt))
  cfg.systemPrompt.replace "{MEMORY_BUFFER}" bufferText

/-- One iteration of the `processQueue` while-loop up to (but not
including) awaiting `agent.runWithState`: status `preparing`, drain the
queue, reuse the preserved `AgentState` (appending the drained batches as
user messages) when `resumeStateAfterAbort` is set and a state exists,
otherwise build a fresh `AgentState`; clear both flags and set status
`running`. -/
def processIterationPrep (cfg : WorkerCfg) (st : WorkerState) : WorkerState :=
  let batches := st.queue
  let agentState :=
    match st.resumeStateAfterAbort, st.agentState with
    | true, some s =>
      some { s with messages :=
        s.messages ++ batches.map (bufferMessageToUserMessage cfg.fmt) }
    | _, _ =>
      some { systemPrompt := buildSystemPrompt cfg st.buffer
             messages := batches.map (bufferMessageToUserMessage cfg.fmt)
             tools := cfg.baseTools }
  { st with queue := []
            agentState := agentState
            resumeStateAfterAbort := false
            hasEmaReplyInRun := false
            currentStatus := .running }

/-- Execution of the serialized buffer-write chain
(`bufferWritePromise = bufferWritePromise.then(() => addBuffer(m)).catch(e
=> { log(e); throw e })`).  `writeOk` models success or failure of the
persistence step (`addBuffer`; the in-memory implementation never fails,
the oracle covers the DB-backed TODO).  Per JS promise semantics a `.then`
callback runs only when the chain is fulfilled; on a rejected chain the
callback is skipped and the `.catch` handler logs and re-throws, leaving
the chain rejected.  Given the settled state of the chain before the
listed writes (`rejected`), returns the messages actually persisted, in
execution order. -/
def runChain (writeOk : BufferMessage → Bool) :
    List BufferMessage → Bool → List BufferMessage
  | [], _ => []
  | m :: rest, rejected =>
    if rejected then runChain writeOk rest true
    else if writeOk m then m :: runChain writeOk rest false
    else runChain writeOk rest true

/-! ## Theorems for C8 and C10 -/

/-- Counterexample for C8: with `totalTokens = -1` (negative, hence truthy
in JS), `updateApiTokens` overwrites `apiTotalTokens` with `-1` instead of
leaving it unchanged as the claim states. -/
theorem updateApiTokens_negative_overwrites :
    (updateApiTokens
        { messages := [], tokenLimit := 80000, apiTotalTokens := 5,
          skipNextTokenCheck := false }
        { message := { contents := [], toolCalls := none },
          finishReason := "stop", totalTokens := -1 }).apiTotalTokens
      = -1 := by decide

/-- C8 (amended): `updateApiTokens` overwrites `apiTotalTokens` with
`response.totalTokens` exactly when `totalTokens ≠ 0` (JS number
truthiness), and leaves the whole state unchanged when `totalTokens = 0`.
In particular a negative report does overwrite. -/
theorem updateApiTokens_spec (st : CMState) (response : LLMResponse) :
    (response.totalTokens ≠ 0 →
      (updateApiTokens st response).apiTotalTokens = response.totalTokens) ∧
    (response.totalTokens = 0 → updateApiTokens st response = st) := by
  constructor
  · intro h
    simp [updateApiTokens, h]
  · intro h
    simp [updateApiTokens, h]

/-- Witness for C8: evaluating both branches of the amended claim at
concrete inputs. -/
theorem updateApiTokens_spec_witness :
    (updateApiTokens
        { messages := [], tokenLimit := 80000, apiTotalTokens := 7,
          skipNextTokenCheck := false }
        { message := { contents := [], toolCalls := none },
          finishReason := "stop", totalTokens := 42 }).apiTotalTokens = 42 ∧
    updateApiTokens
        { messages := [], tokenLimit := 80000, apiTotalTokens := 7,
          skipNextTokenCheck := false }
        { message := { contents := [], toolCalls := none },
          finishReason := "stop", totalTokens := 0 }
      = { messages := [], tokenLimit := 80000, apiTotalTokens := 7,
          skipNextTokenCheck := false } :=
  ⟨(updateApiTokens_spec _ _).1 (by decide),
   (updateApiTokens_spec _ _).2 rfl⟩

/-- C7: gating of `summarizeMessages`.  (i) With `skipNextTokenCheck` set
the call returns immediately with the message list unchanged and the flag
cleared; (ii) otherwise the state is returned unchanged (in particular a
local estimate exactly equal to `tokenLimit` does not trigger, the
comparison being strict); (iii) whenever the call rebuilds the list,
`skipNextTokenCheck` is `true` afterwards. -/
theorem summarizeMessages_gating (env : LLMEnv) (st : CMState) :
    (st.skipNextTokenCheck = true →
      summarizeMessages env st
        = ({ st with skipNextTokenCheck := false }, [], .skipped)) ∧
    (st.skipNextTokenCheck = false →
      (estimateTokens env.encLen st.messages : Int) ≤ st.tokenLimit →
      st.apiTotalTokens ≤ st.tokenLimit →
      summarizeMessages env st = (st, [], .notNeeded)) ∧
    (∀ u c, (summarizeMessages env st).2.2 = .rebuilt u c →
      (summarizeMessages env st).1.skipNextTokenCheck = true) := by
  refine ⟨fun h => ?_, fun h h1 h2 => ?_, fun u c h => ?_⟩
  · simp [summarizeMessages, h]
  · simp [summarizeMessages, h, not_lt.mpr h1, not_lt.mpr h2]
  · by_cases h1 : st.skipNextTokenCheck = true
    · simp [summarizeMessages, h1] at h
    · by_cases h2 : ((estimateTokens env.encLen st.messages : Int) > st.tokenLimit
          ∨ st.apiTotalTokens > st.tokenLimit)
      · by_cases h3 : (userIndices st.messages).length < 1
        · simp [summarizeMessages, h1, h2, h3] at h
        · simp [summarizeMessages, h1, h2, h3]
      · simp [summarizeMessages, h1, h2] at h

/-- Witness for C7: the three branches evaluated on concrete states.
The boundary state has one user message of 10 characters, estimate
`10 + 4 = 14` under a character-count encoder, and `tokenLimit = 14`:
no summarization happens. -/
theorem summarizeMessages_gating_witness :
    (summarizeMessages ⟨String.length, fun _ => none⟩
        { messages := [.user [.text "0123456789"]], tokenLimit := 14,
          apiTotalTokens := 0, skipNextTokenCheck := true }
      = ({ messages := [.user [.text "0123456789"]], tokenLimit := 14,
           apiTotalTokens := 0, skipNextTokenCheck := false }, [], .skipped)) ∧
    (summarizeMessages ⟨String.length, fun _ => none⟩
        { messages := [.user [.text "0123456789"]], tokenLimit := 14,
          apiTotalTokens := 0, skipNextTokenCheck := false }
      = ({ messages := [.user [.text "0123456789"]], tokenLimit := 14,
           apiTotalTokens := 0, skipNextTokenCheck := false }, [], .notNeeded)) ∧
    ((summarizeMessages ⟨String.length, fun _ => none⟩
        { messages := [.user [.text "0123456789"]], tokenLimit := 2,
          apiTotalTokens := 0, skipNextTokenCheck := false }).1.skipNextTokenCheck
      = true) :=
  ⟨(summarizeMessages_gating _ _).1 rfl,
   (summarizeMessages_gating _ _).2.1 rfl (by decide) (by decide),
   (summarizeMessages_gating _ _).2.2 1 0 (by decide)⟩

/-- Reading the message list at the indices collected by `userIndices`
yields exactly the user messages, in order. -/
theorem userIndices_map_getD (msgs : List Message) :
    (userIndices msgs).map (fun u => msgs.getD u (Message.user []))
      = msgs.filter isUserMessage := by
  induction msgs with
  | nil => rfl
  | cons m t ih =>
    by_cases h : isUserMessage m <;>
    · simp only [userIndices, h, List.filter_cons, List.map_cons, List.map_map,
        Function.comp_def, List.getD_cons_succ, List.getD_cons_zero,
        if_true, if_false, Bool.false_eq_true, ite_true, ite_false]
      simp only [List.getD_eq_getElem?_getD] at ih ⊢
      simp [ih, h]

/-- The rebuild loop keeps the messages addressed by the given indices as
an in-order sublist of its output. -/
theorem getD_sublist_summarizeRounds (env : LLMEnv) (msgs : List Message) :
    ∀ (idxs : List Nat) (i : Nat),
      List.Sublist (idxs.map (fun u => msgs.getD u (Message.user [])))
        (summarizeRounds env msgs idxs i).newMessages := by
  intro idxs
  induction idxs with
  | nil => intro i; simp [summarizeRounds]
  | cons u rest ih =>
    intro i
    simp only [summarizeRounds, List.map_cons]
    exact List.Sublist.cons₂ _
      ((ih (i + 1)).trans (List.sublist_append_right _ _))

/-- C3: whenever `summarizeMessages` rebuilds the message list, every
`UserMessage` present before summarization is still present afterwards,
and the preserved user messages appear in the same relative order (the
original user messages form an in-order sublist of the new list). -/
theorem summarize_preserves_user_messages (env : LLMEnv) (st : CMState)
    (u c : Nat) (h : (summarizeMessages env st).2.2 = .rebuilt u c) :
    List.Sublist (st.messages.filter isUserMessage)
      (summarizeMessages env st).1.messages := by
  by_cases h1 : st.skipNextTokenCheck = true
  · simp [summarizeMessages, h1] at h
  · by_cases h2 : ((estimateTokens env.encLen st.messages : Int) > st.tokenLimit
        ∨ st.apiTotalTokens > st.tokenLimit)
    · by_cases h3 : (userIndices st.messages).length < 1
      · simp [summarizeMessages, h1, h2, h3] at h
      · simp only [summarizeMessages, h1, h2, h3, not_true, not_false_eq_true,
          if_false, if_true, Bool.false_eq_true, ite_false, ite_true]
        rw [← userIndices_map_getD]
        exact (getD_sublist_summarizeRounds env st.messages _ 0).trans
          (List.sublist_append_right _ _)
    · simp [summarizeMessages, h1, h2] at h

/-- Concrete context for the C3 witness: two user messages interleaved
with model/tool traffic, over the character-count encoder and a failing
summary LLM (so the deterministic fallback text is used). -/
def envC3 : LLMEnv := ⟨String.length, fun _ => none⟩

/-- Concrete state for the C3 witness (token limit 0 forces a rebuild). -/
def stC3 : CMState :=
  { messages :=
      [.user [.text "a"],
       .model [.text "working"]
         (some [⟨some "1", "get_skill", [("skill_name", .str "s")], none⟩]),
       .tool "get_skill" (some "1") ⟨true, some "content", none⟩,
       .user [.text "b"],
       .model [.text "done"] none],
    tokenLimit := 0, apiTotalTokens := 0, skipNextTokenCheck := false }

/-- Witness for C3: the preservation theorem applied to a concrete
summarization that rebuilds the list. -/
theorem summarize_preserves_user_messages_witness :
    List.Sublist (stC3.messages.filter isUserMessage)
      (summarizeMessages envC3 stC3).1.messages :=
  summarize_preserves_user_messages envC3 stC3 2 2 (by decide)

/-! ### Round decomposition (specification-level view of the rebuild)

The spec describes the rebuild round-by-round: each round is a user
message together with the messages up to the next user message.  The
following definitions express that decomposition directly by list
splitting, independently of the index arithmetic the source uses; the
equivalence proof below connects the two. -/

/-- Negation of the user-message guard, as a reusable predicate for
`takeWhile`/`dropWhile`. -/
def notUser (m : Message) : Bool := ! isUserMessage m

/-- Split a message list into rounds: each user message paired with the
run of non-user messages that follows it (messages before the first user
message belong to no round). -/
def rounds : List Message → List (Message × List Message)
  | [] => []
  | m :: rest =>
    if isUserMessage m then
      (m, rest.takeWhile notUser) :: rounds (rest.dropWhile notUser)
    else rounds rest
termination_by l => l.length
decreasing_by
  · exact Nat.lt_succ_of_le (List.dropWhile_sublist _).length_le
  · exact Nat.lt_succ_self _

/-- Specification-level rebuild: for the round at (0-based) position `i`,
emit the user message followed by the round part (one synthesized summary
message, when the round is nonempty and its summary text is nonempty). -/
def roundsSpec (env : LLMEnv) : List (Message × List Message) → Nat → RoundsOut
  | [], _ => ⟨[], 0, []⟩
  | r :: rest, i =>
    let p := roundPart env r.2 (i + 1)
    let tail := roundsSpec env rest (i + 1)
    ⟨r.1 :: (p.1 ++ tail.newMessages),
     p.2.1 + tail.summaryCount,
     p.2.2 ++ tail.events⟩

/-- Prepending a message while shifting all indices by one leaves the
rebuild loop's output unchanged. -/
theorem summarizeRounds_shift (env : LLMEnv) (m : Message) (t : List Message) :
    ∀ (idxs : List Nat) (i : Nat),
      summarizeRounds env (m :: t) (idxs.map (· + 1)) i
        = summarizeRounds env t idxs i := by
  intro idxs
  induction idxs with
  | nil => intro i; rfl
  | cons v rest ih =>
    intro i
    have hnext : (rest.map (· + 1)).headD (m :: t).length
        = rest.headD t.length + 1 := by
      cases rest <;> simp
    simp only [summarizeRounds, List.map_cons, hnext, ih,
      List.take_succ_cons, List.drop_succ_cons, List.getD_cons_succ]

/-- `rounds` ignores a leading run of non-user messages. -/
theorem rounds_dropWhile (t : List Message) :
    rounds (t.dropWhile notUser) = rounds t := by
  induction t with
  | nil => rfl
  | cons x t ih =>
    by_cases h : isUserMessage x
    · simp [List.dropWhile_cons, notUser, h]
    · simp only [List.dropWhile_cons, notUser, h, Bool.not_false, if_true,
        ite_true]
      rw [ih, rounds]
      simp [h]

/-- Taking up to the first user index is taking the leading non-user run. -/
theorem take_headD_userIndices (t : List Message) :
    t.take ((userIndices t).headD t.length) = t.takeWhile notUser := by
  induction t with
  | nil => rfl
  | cons x t ih =>
    by_cases h : isUserMessage x
    · simp [userIndices, h, List.takeWhile_cons, notUser]
    · have hh : ((userIndices t).map (· + 1)).headD (t.length + 1)
          = (userIndices t).headD t.length + 1 := by
        cases hu : userIndices t <;> simp [hu]
      simp only [userIndices, h, List.takeWhile_cons, notUser, Bool.not_false,
        if_false, if_true, Bool.false_eq_true, ite_false, ite_true,
        List.length_cons, hh, List.take_succ_cons]
      simpa [List.headD_eq_head?] using ih

/-- The source's index-driven rebuild loop computes exactly the
specification-level round-by-round rebuild. -/
theorem summarizeRounds_eq_roundsSpec (env : LLMEnv) :
    ∀ (msgs : List Message) (i : Nat),
      summarizeRounds env msgs (userIndices msgs) i
        = roundsSpec env (rounds msgs) i := by
  intro msgs
  induction msgs with
  | nil => intro i; simp [summarizeRounds, roundsSpec, rounds, userIndices]
  | cons m t ih =>
    intro i
    by_cases h : isUserMessage m
    · have hnext : ((userIndices t).map (· + 1)).headD (m :: t).length
          = (userIndices t).headD t.length + 1 := by
        cases hu : userIndices t <;> simp [hu]
      have hexec : ((m :: t).take ((userIndices t).headD t.length + 1)).drop (0 + 1)
          = t.takeWhile notUser := by
        rw [List.take_succ_cons, List.drop_succ_cons, List.drop_zero,
          take_headD_userIndices]
      simp only [userIndices, h, if_true, ite_true]
      rw [summarizeRounds, hnext, hexec, summarizeRounds_shift, ih, rounds]
      simp only [h, if_true, ite_true, roundsSpec, List.getD_cons_zero,
        rounds_dropWhile]
    · simp only [userIndices, h, if_false, Bool.false_eq_true, ite_false]
      rw [summarizeRounds_shift, ih, rounds]
      simp [h]

/-- The number of user indices equals the number of rounds. -/
theorem userIndices_length_eq_rounds_length (msgs : List Message) :
    (userIndices msgs).length = (rounds msgs).length := by
  induction msgs with
  | nil => simp [userIndices, rounds]
  | cons m t ih =>
    by_cases h : isUserMessage m
    · simp only [userIndices, h, if_true, ite_true]
      rw [rounds]
      simp [h, rounds_dropWhile, ih]
    · simp only [userIndices, h, if_false, Bool.false_eq_true, ite_false]
      rw [rounds]
      simp [h, ih]

/-- C6 (amended): whenever `summarizeMessages` rebuilds the list, the new
message list is the kept prelude followed, for each user message in index
order, by that user message and then at most one synthesized
`"[Model Execution Summary]\n\n" ++ roundSummary` user message — appended
exactly when the round has execution messages *and* the produced summary
text is nonempty (the summary can be empty only when the summary LLM call
succeeds with empty text; the failure fallback is always nonempty).  The
reported `userMessageCount` is the number of rounds and `summaryCount`
the number of appended summaries. -/
theorem summarize_rebuild_round_structure (env : LLMEnv) (st : CMState)
    (u c : Nat) (h : (summarizeMessages env st).2.2 = .rebuilt u c) :
    (summarizeMessages env st).1.messages
        = headPart st.messages
          ++ (roundsSpec env (rounds st.messages) 0).newMessages
    ∧ c = (roundsSpec env (rounds st.messages) 0).summaryCount
    ∧ u = (rounds st.messages).length := by
  by_cases h1 : st.skipNextTokenCheck = true
  · simp [summarizeMessages, h1] at h
  · by_cases h2 : ((estimateTokens env.encLen st.messages : Int) > st.tokenLimit
        ∨ st.apiTotalTokens > st.tokenLimit)
    · by_cases h3 : (userIndices st.messages).length < 1
      · simp [summarizeMessages, h1, h2, h3] at h
      · simp only [summarizeMessages, h1, h2, h3, not_true, not_false_eq_true,
          if_false, if_true, Bool.false_eq_true, ite_false, ite_true] at h ⊢
        rw [summarizeRounds_eq_roundsSpec] at h ⊢
        rw [SummResult.rebuilt.injEq] at h
        rcases h with ⟨hu, hc⟩
        exact ⟨rfl, hc.symm, hu.symm.trans
          (userIndices_length_eq_rounds_length st.messages)⟩
    · simp [summarizeMessages, h1, h2] at h

/-- Character-count encoder with a failing summary LLM call (so the
deterministic round rendering is used as the summary text). -/
def envFB : LLMEnv := ⟨String.length, fun _ => none⟩

/-- Context for the C6 witness: three user messages, each followed by one
model message; token limit 0 forces a rebuild. -/
def stC6 : CMState :=
  { messages :=
      [.user [.text "q1"], .model [.text "r1"] none,
       .user [.text "q2"], .model [.text "r2"] none,
       .user [.text "q3"], .model [.text "r3"] none],
    tokenLimit := 0, apiTotalTokens := 0, skipNextTokenCheck := false }

/-- Witness for C6: the concrete 3-round context rebuilds to the round
structure with 6 messages and `summaryCount = 3`. -/
theorem summarize_rebuild_round_structure_witness :
    (summarizeMessages envFB stC6).1.messages
        = headPart stC6.messages
          ++ (roundsSpec envFB (rounds stC6.messages) 0).newMessages
    ∧ (summarizeMessages envFB stC6).1.messages.length = 6
    ∧ (summarizeMessages envFB stC6).2.2 = .rebuilt 3 3 :=
  ⟨(summarize_rebuild_round_structure envFB stC6 3 3 (by decide)).1,
   by decide, by decide⟩

/-- A summary LLM that "succeeds" with an empty response. -/
def envEmptySummary : LLMEnv := ⟨String.length, fun _ => some []⟩

/-- Context for the C6 counterexample: one user message followed by one
model message. -/
def stC6cex : CMState :=
  { messages := [.user [.text "hi"], .model [.text "working"] none],
    tokenLimit := 0, apiTotalTokens := 0, skipNextTokenCheck := false }

/-- Counterexample for C6 as stated: one message lies between the user
message and the end of the list, yet when the summary LLM call succeeds
with empty text no synthesized summary message is appended (`if
(summaryText)` is falsy for `""`): the rebuilt list has 1 message, not 2,
and `summaryCount = 0`, not 1. -/
theorem summarize_round_missing_summary :
    stC6cex.messages.drop 1 ≠ [] ∧
    (summarizeMessages envEmptySummary stC6cex).2.2 = .rebuilt 1 0 ∧
    (summarizeMessages envEmptySummary stC6cex).1.messages
      = [.user [.text "hi"]] := by decide

/-- C10: `FinalReplyTool.execute` always succeeds: for every combination
of runtime arguments, the result is `success=true` with `content` equal to
the two-space-indented JSON serialization of the normalized reply record
(missing / nullish fields coerced to `""`, other values through the
`String()` coercion) and no error; the `success=false` branch is
unreachable. -/
theorem finalReplyTool_execute_spec
    (think expression action response : JsVal) :
    FinalReplyTool.execute think expression action response
      = { success := true
          content := some (stringifyLLMReply
            (LLMReply.normalize think expression action response))
          error := none } := rfl

/-! ## Theorems for C4, C5 and C9 -/

/-- C9: `work` fails validation for an empty input batch (`noInputs`) and
for any batch containing a non-text content block
(`unsupportedInput`); in both failure cases the worker state is returned
unchanged — nothing is appended to the queue, no buffer write is
enqueued, and the status is untouched (validation precedes all
mutations). -/
theorem work_input_validation (cfg : WorkerCfg) (st : WorkerState)
    (now : Nat) :
    work cfg st [] now = (st, .error .noInputs)
    ∧ (∀ inputs : List ContentBlock, inputs ≠ [] →
        (∃ b ∈ inputs, b.isText = false) →
        work cfg st inputs now = (st, .error .unsupportedInput)) := by
  constructor
  · rfl
  · rintro inputs hne ⟨b, hb, hbt⟩
    have h1 : inputs.isEmpty = false := by
      simpa [List.isEmpty_iff] using hne
    have h2 : inputs.any (fun b => !b.isText) = true := by
      rw [List.any_eq_true]
      exact ⟨b, hb, by simp [hbt]⟩
    simp [work, h1, h2]

/-- A worker configuration for the concrete witnesses. -/
def cfgW : WorkerCfg :=
  { userId := 1, systemPrompt := "You are EMA.\n{MEMORY_BUFFER}",
    baseTools := ["ema_reply", "get_skill", "exec_skill"],
    fmt := fun _ => "2024-01-02 03:04:05" }

/-- An idle worker with empty state. -/
def stIdleW : WorkerState :=
  { currentStatus := .idle, agentState := none, buffer := [], queue := [],
    hasEmaReplyInRun := false, resumeStateAfterAbort := false,
    chainPending := [] }

/-- Witness for C9: both validation failures on concrete inputs, leaving
the idle worker untouched. -/
theorem work_input_validation_witness :
    work cfgW stIdleW [] 0 = (stIdleW, .error .noInputs)
    ∧ work cfgW stIdleW [.other "image" "\x7b\x7d"] 0
        = (stIdleW, .error .unsupportedInput) :=
  ⟨(work_input_validation cfgW stIdleW 0).1,
   (work_input_validation cfgW stIdleW 0).2 [.other "image" "\x7b\x7d"]
     (by decide) ⟨.other "image" "\x7b\x7d", by decide, rfl⟩⟩

/-- C4: the preemption contract.  (i) `work` on a busy worker (after
validation and enqueuing) sets `resumeStateAfterAbort` to the negation of
`hasEmaReplyInRun` and aborts the current run; (ii) the next
`processQueue` iteration appends the drained queue, converted to user
messages, to the preserved `AgentState` when the resume flag is set and a
state exists; (iii) otherwise it builds a fresh `AgentState` whose
messages are exactly the drained queue converted to user messages, with a
freshly built system prompt and the configured base tools. -/
theorem worker_preemption_contract (cfg : WorkerCfg) :
    (∀ (st : WorkerState) (inputs : List ContentBlock) (now : Nat),
      isBusy st = true → inputs ≠ [] → (∀ b ∈ inputs, b.isText = true) →
      (work cfg st inputs now).1.resumeStateAfterAbort
          = !st.hasEmaReplyInRun
        ∧ (work cfg st inputs now).2 = .ok .abortedCurrentRun)
    ∧ (∀ (st : WorkerState) (s : AgentState),
        st.resumeStateAfterAbort = true → st.agentState = some s →
        (processIterationPrep cfg st).agentState
          = some { s with messages := (s.messages
              ++ st.queue.map (bufferMessageToUserMessage cfg.fmt)) })
    ∧ (∀ st : WorkerState,
        st.resumeStateAfterAbort = false ∨ st.agentState = none →
        (processIterationPrep cfg st).agentState
          = some { systemPrompt := buildSystemPrompt cfg st.buffer
                   messages :=
                     st.queue.map (bufferMessageToUserMessage cfg.fmt)
                   tools := cfg.baseTools }) := by
  refine ⟨fun st inputs now hb hne hall => ?_,
    fun st s hr ha => ?_, fun st h => ?_⟩
  · have h1 : inputs.isEmpty = false := by
      simpa [List.isEmpty_iff] using hne
    have h2 : inputs.any (fun b => !b.isText) = false := by
      rw [Bool.eq_false_iff]
      intro hx
      rw [List.any_eq_true] at hx
      rcases hx with ⟨b, hb2, hx⟩
      simp [hall b hb2] at hx
    simp [work, h1, h2, isBusy] at hb ⊢
    simp [hb]
  · simp [processIterationPrep, hr, ha]
  · rcases h with h | h
    · simp [processIterationPrep, h]
    · cases hr : st.resumeStateAfterAbort <;>
        simp [processIterationPrep, h, hr]

/-- The preserved agent state of the preempted run, for the C4 witness. -/
def agentStateW : AgentState :=
  { systemPrompt := "sys", messages := [.user [.text "earlier"]],
    tools := ["ema_reply"] }

/-- A busy worker holding a preserved state and one queued input. -/
def stBusyW : WorkerState :=
  { currentStatus := .running,
    agentState := some agentStateW,
    buffer := [], queue := [bufferMessageFromUser 1 "User" [.text "hi"] 5],
    hasEmaReplyInRun := false, resumeStateAfterAbort := true,
    chainPending := [] }

/-- Witness for C4: all three parts of the preemption contract evaluated
on concrete worker states. -/
theorem worker_preemption_contract_witness :
    ((work cfgW stBusyW [.text "more"] 7).1.resumeStateAfterAbort = true
      ∧ (work cfgW stBusyW [.text "more"] 7).2 = .ok .abortedCurrentRun)
    ∧ (processIterationPrep cfgW stBusyW).agentState
        = some { agentStateW with messages := (agentStateW.messages
            ++ stBusyW.queue.map (bufferMessageToUserMessage cfgW.fmt)) }
    ∧ (processIterationPrep cfgW
          { stBusyW with resumeStateAfterAbort := false }).agentState
        = some { systemPrompt := buildSystemPrompt cfgW stBusyW.buffer
                 messages :=
                   stBusyW.queue.map (bufferMessageToUserMessage cfgW.fmt)
                 tools := cfgW.baseTools } :=
  ⟨(worker_preemption_contract cfgW).1 stBusyW [.text "more"] 7
      rfl (by decide) (by decide),
   (worker_preemption_contract cfgW).2.1 stBusyW agentStateW rfl rfl,
   (worker_preemption_contract cfgW).2.2
      { stBusyW with resumeStateAfterAbort := false } (Or.inl rfl)⟩

/-- A rejected chain executes nothing: every `.then` callback is skipped
and every `.catch` re-throws. -/
theorem runChain_rejected (writeOk : BufferMessage → Bool)
    (msgs : List BufferMessage) : runChain writeOk msgs true = [] := by
  induction msgs with
  | nil => rfl
  | cons m rest ih => simp [runChain, ih]

/-- C5 (amended): buffer writes execute strictly in enqueue order — the
persisted messages are exactly the longest prefix of the enqueued
sequence up to (and excluding) the first failing write, hence an in-order
sublist of the enqueued sequence.  However, after a failed write the
chain stays rejected: every write enqueued after the failure is skipped
(it is logged and the rejection re-raised), so later writes do *not*
execute. -/
theorem bufferChain_order (writeOk : BufferMessage → Bool)
    (msgs : List BufferMessage) :
    runChain writeOk msgs false = msgs.takeWhile writeOk
    ∧ List.Sublist (runChain writeOk msgs false) msgs
    ∧ runChain writeOk msgs true = [] := by
  have h1 : runChain writeOk msgs false = msgs.takeWhile writeOk := by
    induction msgs with
    | nil => rfl
    | cons m rest ih =>
      by_cases h : writeOk m = true
      · simp [runChain, h, List.takeWhile_cons, ih]
      · simp [runChain, h, List.takeWhile_cons, runChain_rejected]
  exact ⟨h1, h1 ▸ (List.takeWhile_prefix _).sublist,
    runChain_rejected writeOk msgs⟩

/-- First enqueued buffer message for the C5 counterexample. -/
def bmA : BufferMessage := ⟨.user, 1, "User", [.text "first"], 0⟩

/-- Second enqueued buffer message for the C5 counterexample. -/
def bmB : BufferMessage := ⟨.user, 1, "User", [.text "second"], 1⟩

/-- A persistence layer that fails exactly on the first message. -/
def failOnA : BufferMessage → Bool := fun m => m != bmA

/-- Counterexample for C5 as stated: when the first write fails, the
second write — which the oracle would accept — never executes: nothing
is persisted, contradicting "every write enqueued after a failed write
still executes". -/
theorem bufferChain_failure_skips_later_writes :
    runChain failOnA [bmA, bmB] false = [] ∧ failOnA bmB = true := by decide

end Ema
